import Mathlib

/-!
Verification of the chunk-transfer core of `client/src/lib/webrtc.ts`
(class `WebRTCManager`): the packet codec (`createPacket`, the inline
decode of `handleDataChannelMessage`), the sender chunking of `sendFile`,
the receiver assembler (`handleDataChannelMessage`,
`reconstructAndDownloadFile`, `MAX_RETRIES`), the progress computation
(`updateProgress`), and the channel-open gate at the top of `sendFile`.

Modelling conventions.  A byte is a natural number below 256; `ArrayBuffer`
payloads are lists of bytes.  A JS `Map` is an insertion-ordered association
list with unique keys (`mapGet`, `mapSet`, `Map.size` is the list length).
`DataView.setUint16` and `setUint8` wrap their argument modulo the target
width, which the model makes explicit.  Reading a 3-byte `DataView` of a
shorter buffer throws a `RangeError`; the handler's `try`/`catch` swallows
it before any state was mutated, so the model returns `none` and the step
function leaves the state unchanged.  Wall-clock progress throttling
(`Date.now()` sampling) touches none of the state the claims mention and is
kept out of the receiver step; `updateProgress` itself is modelled as a pure
function over rationals.
-/

namespace WebRTC

abbrev Bytes := List Nat

/-- Model of `quickChecksum` (webrtc.ts lines 218-221): the byte-wise 8-bit
XOR fold of the payload. -/
def quickChecksum (data : Bytes) : Nat :=
  data.foldl (fun sum byte => sum ^^^ byte) 0

/-- Model of `createPacket` (webrtc.ts lines 205-216): a 3-byte header, the
chunk index stored little-endian by `setUint16` (which wraps modulo 2 ^ 16)
and one checksum byte stored by `setUint8` (which wraps modulo 2 ^ 8),
followed by the raw payload bytes. -/
def createPacket (index : Nat) (data : Bytes) : Bytes :=
  index % 256 :: index / 256 % 256 :: quickChecksum data % 256 :: data

/-- Model of the binary-packet parsing in `handleDataChannelMessage`
(webrtc.ts lines 276-283): constructing the 3-byte `DataView` throws on a
buffer shorter than 3 bytes (swallowed by the handler's `try`/`catch`,
modelled as `none`); otherwise the result is the little-endian 16-bit index,
the payload after byte 3, and whether the recomputed checksum equals the
checksum byte. -/
def decode (data : Bytes) : Option (Nat × Bytes × Bool) :=
  if data.length < 3 then none
  else some (data.getD 0 0 + 256 * data.getD 1 0, data.drop 3,
             quickChecksum (data.drop 3) == data.getD 2 0)

/-- Payload component of a decoded packet (empty on decode failure). -/
def decodedPayload (packet : Bytes) : Bytes :=
  match decode packet with
  | some (_, payload, _) => payload
  | none => []

/-- Checksum-valid component of a decoded packet (`false` on decode
failure). -/
def decodedValid (packet : Bytes) : Bool :=
  match decode packet with
  | some (_, _, ok) => ok
  | none => false

/-- Index component of a decoded packet (`0` on decode failure). -/
def decodedIndex (packet : Bytes) : Nat :=
  match decode packet with
  | some (index, _, _) => index
  | none => 0

/-- Model of `Math.ceil(size / chunkSize)` (webrtc.ts line 146) for a
natural size and a positive chunk size. -/
def totalChunksOf (size chunkSize : Nat) : Nat :=
  (size + chunkSize - 1) / chunkSize

/-- Model of `file.slice(i * CHUNK_SIZE, min((i + 1) * CHUNK_SIZE, size))`
(webrtc.ts lines 167-169). -/
def chunkAt (file : Bytes) (chunkSize i : Nat) : Bytes :=
  (file.drop (i * chunkSize)).take chunkSize

/-- The chunk packets `sendFile` transmits for a file, in send order
(webrtc.ts lines 146-182): one `createPacket` per index below the chunk
count. -/
def senderPackets (file : Bytes) (chunkSize : Nat) : List Bytes :=
  (List.range (totalChunksOf file.length chunkSize)).map
    (fun i => createPacket i (chunkAt file chunkSize i))

theorem foldl_xor_eq (l : Bytes) :
    ∀ i : Nat, l.foldl (fun s b => s ^^^ b) i
      = i ^^^ l.foldl (fun s b => s ^^^ b) 0 := by
  induction l with
  | nil => intro i; simp
  | cons b rest ih =>
      intro i
      simp only [List.foldl_cons]
      rw [ih (i ^^^ b), ih (0 ^^^ b), Nat.zero_xor, Nat.xor_assoc]

theorem quickChecksum_cons (b : Nat) (rest : Bytes) :
    quickChecksum (b :: rest) = b ^^^ quickChecksum rest := by
  unfold quickChecksum
  simp only [List.foldl_cons, Nat.zero_xor]
  exact foldl_xor_eq rest b

theorem quickChecksum_lt (data : Bytes) (h : ∀ b ∈ data, b < 256) :
    quickChecksum data < 256 := by
  induction data with
  | nil => simp [quickChecksum]
  | cons b rest ih =>
      rw [quickChecksum_cons]
      have hb : b < 2 ^ 8 := h b (List.mem_cons_self b rest)
      have hr : quickChecksum rest < 2 ^ 8 :=
        ih (fun x hx => h x (List.mem_cons_of_mem b hx))
      exact Nat.xor_lt_two_pow hb hr

theorem decode_createPacket (index : Nat) (data : Bytes)
    (h : quickChecksum data < 256) :
    decode (createPacket index data) = some (index % 65536, data, true) := by
  unfold decode createPacket
  rw [if_neg (by simp)]
  have hidx : index % 256 + 256 * (index / 256 % 256) = index % 65536 := by
    omega
  have hchk : quickChecksum data % 256 = quickChecksum data :=
    Nat.mod_eq_of_lt h
  simp [hidx, hchk]

theorem chunkAt_succ (file : Bytes) (chunkSize i : Nat) :
    chunkAt file chunkSize (i + 1) = chunkAt (file.drop chunkSize) chunkSize i := by
  unfold chunkAt
  rw [List.drop_drop, Nat.succ_mul, Nat.add_comm (i * chunkSize) chunkSize]

theorem join_chunkAt (chunkSize : Nat) :
    ∀ (n : Nat) (file : Bytes),
      ((List.range n).map (fun i => chunkAt file chunkSize i)).flatten
        = file.take (n * chunkSize) := by
  intro n
  induction n with
  | zero => intro file; simp
  | succ m ih =>
      intro file
      rw [List.range_succ_eq_map]
      simp only [List.map_cons, List.map_map, List.flatten_cons]
      have h0 : chunkAt file chunkSize 0 = file.take chunkSize := by
        unfold chunkAt; simp
      have hrest :
          (List.range m).map ((fun i => chunkAt file chunkSize i) ∘ Nat.succ)
            = (List.range m).map (fun i => chunkAt (file.drop chunkSize) chunkSize i) := by
        refine List.map_congr_left ?_
        intro a _
        exact chunkAt_succ file chunkSize a
      rw [h0, hrest, ih (file.drop chunkSize)]
      rw [Nat.succ_mul, Nat.add_comm (m * chunkSize) chunkSize, List.take_add]

theorem length_le_totalChunks_mul (L chunkSize : Nat) (h : 0 < chunkSize) :
    L ≤ totalChunksOf L chunkSize * chunkSize := by
  unfold totalChunksOf
  have h1 := Nat.div_add_mod (L + chunkSize - 1) chunkSize
  have h2 : (L + chunkSize - 1) % chunkSize < chunkSize :=
    Nat.mod_lt _ h
  rw [Nat.mul_comm]
  set q := (L + chunkSize - 1) / chunkSize with hq
  set r := (L + chunkSize - 1) % chunkSize with hr
  set t := chunkSize * q with ht
  omega

theorem chunkAt_bytes_lt (file : Bytes) (chunkSize i : Nat)
    (h : ∀ b ∈ file, b < 256) :
    ∀ b ∈ chunkAt file chunkSize i, b < 256 := by
  intro b hb
  exact h b (List.drop_subset _ _ (List.take_subset _ _ hb))

/-- Claim C1: for every byte sequence and every positive chunk size,
splitting into ceil(L/chunkSize) chunks sliced exactly as `sendFile` does,
encoding each with `createPacket`, decoding each packet (every checksum
reported valid), and concatenating the decoded payloads in index order
reproduces the original byte sequence. -/
theorem C1_chunk_roundtrip (file : Bytes) (chunkSize : Nat)
    (hcs : 0 < chunkSize) (hbytes : ∀ b ∈ file, b < 256) :
    ((List.range (totalChunksOf file.length chunkSize)).map
        (fun i => decodedPayload (createPacket i (chunkAt file chunkSize i)))).flatten
      = file ∧
    ∀ i < totalChunksOf file.length chunkSize,
      decodedValid (createPacket i (chunkAt file chunkSize i)) = true := by
  have hdec : ∀ i : Nat,
      decode (createPacket i (chunkAt file chunkSize i))
        = some (i % 65536, chunkAt file chunkSize i, true) := by
    intro i
    exact decode_createPacket i _
      (quickChecksum_lt _ (chunkAt_bytes_lt file chunkSize i hbytes))
  constructor
  · have hmap :
        (List.range (totalChunksOf file.length chunkSize)).map
            (fun i => decodedPayload (createPacket i (chunkAt file chunkSize i)))
          = (List.range (totalChunksOf file.length chunkSize)).map
              (fun i => chunkAt file chunkSize i) := by
      refine List.map_congr_left ?_
      intro i _
      unfold decodedPayload
      rw [hdec i]
    rw [hmap, join_chunkAt]
    exact List.take_of_length_le
      (length_le_totalChunks_mul file.length chunkSize hcs)
  · intro i _
    unfold decodedValid
    rw [hdec i]

/-- Witness for C1 at the byte sequence 1,2,3 with chunk size 2. -/
theorem C1_chunk_roundtrip_witness :
    ((List.range (totalChunksOf 3 2)).map
        (fun i => decodedPayload (createPacket i (chunkAt [1, 2, 3] 2 i)))).flatten
      = [1, 2, 3] :=
  (C1_chunk_roundtrip [1, 2, 3] 2 (by decide) (by decide)).1

/-- Claim C4 counterexample: `createPacket` silently wraps the chunk index
modulo 2 ^ 16 — the packet for index 65536 is byte-identical to the packet
for index 0, and decodes to index 0 with a valid checksum; no error is
reported anywhere on this path. -/
theorem C4_counterexample :
    createPacket 65536 [7] = createPacket 0 [7] ∧ (65536 : Nat) ≠ 0 ∧
    decode (createPacket 65536 [7]) = some (0, [7], true) := by decide

/-- Claim C4 (amended): `sendFile` performs no range check on the chunk
count, and encoding silently wraps every chunk index modulo 2 ^ 16: the
packet produced for an index is byte-identical to the packet produced for
that index reduced modulo 65536. -/
theorem C4_index_wraps (index : Nat) (data : Bytes) :
    createPacket index data = createPacket (index % 65536) data := by
  unfold createPacket
  have h1 : index % 65536 % 256 = index % 256 := by omega
  have h2 : index % 65536 / 256 % 256 = index / 256 % 256 := by omega
  rw [h1, h2]

/-- Model of `MAX_RETRIES` (webrtc.ts line 40). -/
def MAX_RETRIES : Nat := 5

/-- The receiver-side transfer state of `WebRTCManager` (webrtc.ts lines
28-39) that the claims mention: the chunk store (a JS `Map` modelled as an
insertion-ordered association list), the declared chunk count, the mirrored
metadata fields, the one-shot reconstruction flag and the repair retry
counter. -/
structure RecvState where
  receivedChunks : List (Nat × Bytes)
  expectedChunks : Nat
  currentFileName : String
  currentFileSize : Nat
  currentFileType : String
  fileReconstructionTriggered : Bool
  missingChunkRetries : Nat
deriving DecidableEq

/-- Model of `Map.get` on the chunk store. -/
def mapGet : List (Nat × Bytes) → Nat → Option Bytes
  | [], _ => none
  | (k, v) :: rest, j => if k = j then some v else mapGet rest j

/-- Model of `Map.set` on the chunk store: replace in place when the key is
present, append otherwise. -/
def mapSet : List (Nat × Bytes) → Nat → Bytes → List (Nat × Bytes)
  | [], k, v => [(k, v)]
  | (k', v') :: rest, k, v =>
      if k' = k then (k', v) :: rest else (k', v') :: mapSet rest k v

/-- The externally observable actions of the receiver: invoking the
file-received callback with the ordered `Blob` parts (a part is `none` when
`receivedChunks.get(i)` was `undefined`), sending a
request-missing-chunks control message, and surfacing a fatal error.  The
last constructor is the observation point for the spec's claim that an
IncompleteTransfer error is surfaced to the caller; the handler as written
never produces it. -/
inductive Output where
  | deliver (parts : List (Option Bytes)) (fileName : String)
  | repairRequest (indices : List Nat)
  | error
deriving DecidableEq

/-- The data-channel messages the receiver distinguishes (webrtc.ts lines
258-304): the three parsed control messages and a raw binary packet. -/
inductive Msg where
  | metadata (fileName : String) (fileSize : Nat) (fileType : String)
      (totalChunks : Nat)
  | complete
  | requestMissing (indices : List Nat)
  | binary (bytes : Bytes)
deriving DecidableEq

def Msg.isMetadata : Msg → Bool
  | .metadata _ _ _ _ => true
  | _ => false

def Msg.isBinary : Msg → Bool
  | .binary _ => true
  | _ => false

/-- Model of `reconstructAndDownloadFile` (webrtc.ts lines 323-361): a
one-shot guard, then either the repair branch (store size differs from the
declared total: below the retry maximum the counter is incremented, the
missing indices in [0, expectedChunks) are collected and, when non-empty,
requested; at the maximum the failure is only logged) or delivery (the
parts are read from the store in index order and handed to the callback). -/
def reconstructAndDownloadFile (st : RecvState) : RecvState × List Output :=
  if st.fileReconstructionTriggered then (st, [])
  else if st.receivedChunks.length ≠ st.expectedChunks then
    if st.missingChunkRetries < MAX_RETRIES then
      let missing := (List.range st.expectedChunks).filter
        (fun i => (mapGet st.receivedChunks i).isNone)
      if missing.length > 0 then
        ({ st with missingChunkRetries := st.missingChunkRetries + 1 },
         [Output.repairRequest missing])
      else
        ({ st with missingChunkRetries := st.missingChunkRetries + 1 }, [])
    else (st, [])
  else
    ({ st with fileReconstructionTriggered := true },
     [Output.deliver
        ((List.range st.expectedChunks).map (fun i => mapGet st.receivedChunks i))
        st.currentFileName])

/-- Model of `handleDataChannelMessage` (webrtc.ts lines 258-304).  A
metadata message resets the whole transfer state; a completion message
triggers reconstruction; a repair request only drives the sender-side
`resendChunks` (it touches no receiver state); a binary packet is decoded,
discarded on a short buffer or a checksum mismatch, and otherwise inserted
into the store, reconstructing when the store size reaches the declared
total. -/
def handleDataChannelMessage (st : RecvState) (msg : Msg) :
    RecvState × List Output :=
  match msg with
  | .metadata fileName fileSize fileType totalChunks =>
      ({ receivedChunks := [], expectedChunks := totalChunks,
         currentFileName := fileName, currentFileSize := fileSize,
         currentFileType := fileType, fileReconstructionTriggered := false,
         missingChunkRetries := 0 }, [])
  | .complete => reconstructAndDownloadFile st
  | .requestMissing _ => (st, [])
  | .binary bytes =>
      match decode bytes with
      | none => (st, [])
      | some (index, chunkData, ok) =>
          if ok then
            let st' := { st with
              receivedChunks := mapSet st.receivedChunks index chunkData }
            if st'.receivedChunks.length = st'.expectedChunks then
              reconstructAndDownloadFile st'
            else (st', [])
          else (st, [])

/-- Sequential processing of a list of data-channel messages, collecting the
externally observable actions in order. -/
def runMsgs : RecvState → List Msg → RecvState × List Output
  | st, [] => (st, [])
  | st, m :: rest =>
      let r := handleDataChannelMessage st m
      let r' := runMsgs r.1 rest
      (r'.1, r.2 ++ r'.2)

def Output.isDeliver : Output → Bool
  | .deliver _ _ => true
  | _ => false

def Output.isRepair : Output → Bool
  | .repairRequest _ => true
  | _ => false

def deliverCount (outs : List Output) : Nat :=
  (outs.filter Output.isDeliver).length

def repairCount (outs : List Output) : Nat :=
  (outs.filter Output.isRepair).length

theorem mapGet_mapSet (m : List (Nat × Bytes)) (k j : Nat) (v : Bytes) :
    mapGet (mapSet m k v) j = if k = j then some v else mapGet m j := by
  induction m with
  | nil =>
      by_cases h : k = j <;> simp [mapSet, mapGet, h]
  | cons p rest ih =>
      obtain ⟨k', v'⟩ := p
      by_cases h1 : k' = k
      · subst h1
        by_cases h2 : k' = j <;> simp [mapSet, mapGet, h2]
      · by_cases h2 : k' = j
        · subst h2
          have : ¬k = k' := fun h => h1 h.symm
          simp [mapSet, mapGet, h1, this]
        · simp [mapSet, mapGet, h1, h2, ih]

theorem mapSet_length_of_get_none (m : List (Nat × Bytes)) (k : Nat)
    (v : Bytes) (h : mapGet m k = none) :
    (mapSet m k v).length = m.length + 1 := by
  induction m with
  | nil => simp [mapSet]
  | cons p rest ih =>
      obtain ⟨k', v'⟩ := p
      by_cases h1 : k' = k
      · subst h1
        simp [mapGet] at h
      · simp [mapGet, h1] at h
        simp [mapSet, h1, ih h]

theorem mapGet_isSome_of_mem_keys (m : List (Nat × Bytes)) (j : Nat)
    (h : j ∈ m.map Prod.fst) : (mapGet m j).isSome = true := by
  induction m with
  | nil => simp at h
  | cons p rest ih =>
      obtain ⟨k', v'⟩ := p
      by_cases h1 : k' = j
      · simp [mapGet, h1]
      · rw [List.map_cons, List.mem_cons] at h
        rcases h with h2 | h2
        · exact absurd h2.symm h1
        · simp [mapGet, h1, ih h2]

theorem keys_mapSet (m : List (Nat × Bytes)) (k : Nat) (v : Bytes) :
    (mapSet m k v).map Prod.fst
      = if (mapGet m k).isSome then m.map Prod.fst
        else m.map Prod.fst ++ [k] := by
  induction m with
  | nil => simp [mapSet, mapGet]
  | cons p rest ih =>
      obtain ⟨k', v'⟩ := p
      by_cases h1 : k' = k
      · subst h1
        simp [mapSet, mapGet]
      · simp only [mapSet, if_neg h1, List.map_cons, mapGet,
          if_neg h1, ih]
        by_cases h2 : (mapGet rest k).isSome <;> simp [h2]

/-- Claim C7: a binary message shorter than the 3-byte header is discarded
as if it never arrived: the `DataView` construction throws, the handler's
`try`/`catch` swallows the exception before any mutation, so the chunk
store and all transfer state are unchanged and no external action is
produced. -/
theorem C7_short_packet_discarded (st : RecvState) (bytes : Bytes)
    (h : bytes.length < 3) :
    handleDataChannelMessage st (Msg.binary bytes) = (st, []) := by
  have hd : decode bytes = none := if_pos h
  simp [handleDataChannelMessage, hd]

/-- Witness for C7 at a concrete state and a 2-byte message. -/
theorem C7_short_packet_discarded_witness :
    handleDataChannelMessage ⟨[], 4, "a", 9, "b", false, 2⟩
        (Msg.binary [1, 2])
      = (⟨[], 4, "a", 9, "b", false, 2⟩, []) :=
  C7_short_packet_discarded ⟨[], 4, "a", 9, "b", false, 2⟩ [1, 2] (by decide)

/-- Flip bit `bit` of the byte at position `pos` of a byte list. -/
def flipBit (packet : Bytes) (pos bit : Nat) : Bytes :=
  packet.set pos (packet.getD pos 0 ^^^ 2 ^ bit)

theorem quickChecksum_set (payload : Bytes) :
    ∀ (j : Nat), j < payload.length → ∀ (mask : Nat),
      quickChecksum (payload.set j (payload.getD j 0 ^^^ mask))
        = quickChecksum payload ^^^ mask := by
  induction payload with
  | nil => intro j hj; simp at hj
  | cons b rest ih =>
      intro j hj mask
      cases j with
      | zero =>
          simp only [List.set_cons_zero, List.getD_cons_zero,
            quickChecksum_cons]
          rw [Nat.xor_assoc, Nat.xor_assoc, Nat.xor_comm mask _]
      | succ i =>
          simp only [List.set_cons_succ, List.getD_cons_succ,
            quickChecksum_cons]
          rw [ih i (by simpa using hj) mask, ← Nat.xor_assoc]

theorem xor_two_pow_ne (a k : Nat) : a ^^^ 2 ^ k ≠ a := by
  intro h
  have h2 : a ^^^ (a ^^^ 2 ^ k) = a ^^^ a := congrArg (fun x => a ^^^ x) h
  rw [← Nat.xor_assoc, Nat.xor_self, Nat.zero_xor] at h2
  exact absurd h2 (Nat.pos_pow_of_pos k (by omega)).ne'

theorem decode_cons (b0 b1 c : Nat) (l : Bytes) :
    decode (b0 :: b1 :: c :: l)
      = some (b0 + 256 * b1, l, (quickChecksum l == c)) := by
  unfold decode
  rw [if_neg (by simp)]
  rfl

theorem set_cons3 (a b c : Nat) (l : Bytes) (n v : Nat) :
    (a :: b :: c :: l).set (n + 3) v = a :: b :: c :: l.set n v := by
  have h : n + 3 = n + 1 + 1 + 1 := by omega
  rw [h, List.set_cons_succ, List.set_cons_succ, List.set_cons_succ]

theorem getD_cons3 (a b c : Nat) (l : Bytes) (n : Nat) :
    (a :: b :: c :: l).getD (n + 3) 0 = l.getD n 0 := by
  have h : n + 3 = n + 1 + 1 + 1 := by omega
  rw [h, List.getD_cons_succ, List.getD_cons_succ, List.getD_cons_succ]

/-- Claim C5: flipping any single bit of the payload portion of an encoded
packet (header bytes unchanged) makes the receiver's decode report the
checksum invalid, and the handler then discards the packet: the chunk store
and the whole receiver state are unchanged and no external action is
produced. -/
theorem C5_bit_flip_detected (index : Nat) (payload : Bytes) (j k : Nat)
    (hj : j < payload.length) (hk : k < 8)
    (hbytes : ∀ b ∈ payload, b < 256) :
    decodedValid (flipBit (createPacket index payload) (j + 3) k) = false ∧
    ∀ st : RecvState,
      handleDataChannelMessage st
          (Msg.binary (flipBit (createPacket index payload) (j + 3) k))
        = (st, []) := by
  have hflip : flipBit (createPacket index payload) (j + 3) k
      = index % 256 :: index / 256 % 256 :: quickChecksum payload % 256 ::
          payload.set j (payload.getD j 0 ^^^ 2 ^ k) := by
    unfold flipBit createPacket
    rw [getD_cons3, set_cons3]
  have hQ : quickChecksum (payload.set j (payload.getD j 0 ^^^ 2 ^ k))
      = quickChecksum payload ^^^ 2 ^ k :=
    quickChecksum_set payload j hj (2 ^ k)
  have hne : quickChecksum (payload.set j (payload.getD j 0 ^^^ 2 ^ k))
      ≠ quickChecksum payload % 256 := by
    rw [hQ, Nat.mod_eq_of_lt (quickChecksum_lt payload hbytes)]
    exact xor_two_pow_ne (quickChecksum payload) k
  have hdec : decode (flipBit (createPacket index payload) (j + 3) k)
      = some (index % 256 + 256 * (index / 256 % 256),
              payload.set j (payload.getD j 0 ^^^ 2 ^ k), false) := by
    rw [hflip, decode_cons, beq_eq_false_iff_ne.mpr hne]
  refine ⟨?_, ?_⟩
  · unfold decodedValid
    rw [hdec]
  · intro st
    simp [handleDataChannelMessage, hdec]

/-- Witness for C5: flipping bit 1 of payload byte 0 of the packet for
index 3 and payload 5,6 is rejected and leaves a concrete receiver state
untouched. -/
theorem C5_bit_flip_detected_witness :
    decodedValid (flipBit (createPacket 3 [5, 6]) (0 + 3) 1) = false ∧
    handleDataChannelMessage ⟨[], 2, "a", 9, "b", false, 0⟩
        (Msg.binary (flipBit (createPacket 3 [5, 6]) (0 + 3) 1))
      = (⟨[], 2, "a", 9, "b", false, 0⟩, []) := by
  have h := C5_bit_flip_detected 3 [5, 6] 0 1 (by decide) (by decide)
    (by decide)
  exact ⟨h.1, h.2 ⟨[], 2, "a", 9, "b", false, 0⟩⟩

theorem repairCount_append (a b : List Output) :
    repairCount (a ++ b) = repairCount a + repairCount b := by
  unfold repairCount
  rw [List.filter_append, List.length_append]

theorem deliverCount_append (a b : List Output) :
    deliverCount (a ++ b) = deliverCount a + deliverCount b := by
  unfold deliverCount
  rw [List.filter_append, List.length_append]

theorem reconstruct_retries (st : RecvState) :
    st.missingChunkRetries
        ≤ (reconstructAndDownloadFile st).1.missingChunkRetries ∧
    repairCount (reconstructAndDownloadFile st).2 + st.missingChunkRetries
        ≤ (reconstructAndDownloadFile st).1.missingChunkRetries ∧
    (reconstructAndDownloadFile st).1.missingChunkRetries
        ≤ max st.missingChunkRetries MAX_RETRIES ∧
    Output.error ∉ (reconstructAndDownloadFile st).2 := by
  unfold reconstructAndDownloadFile
  by_cases h1 : st.fileReconstructionTriggered
  · simp [h1, repairCount]
  · by_cases h2 : st.receivedChunks.length ≠ st.expectedChunks
    · by_cases h3 : st.missingChunkRetries < MAX_RETRIES
      · by_cases h4 : ((List.range st.expectedChunks).filter
            (fun i => (mapGet st.receivedChunks i).isNone)).length > 0
        · refine ⟨?_, ?_, ?_, ?_⟩ <;>
            simp [h1, h2, h3, h4, repairCount, Output.isRepair] <;> omega
        · refine ⟨?_, ?_, ?_, ?_⟩ <;>
            simp [h1, h2, h3, h4, repairCount] <;> omega
      · simp [h1, h2, h3, repairCount]
    · simp [h1, h2, repairCount, Output.isRepair]

theorem handle_retries_step (st : RecvState) (m : Msg)
    (hm : m.isMetadata = false) :
    st.missingChunkRetries
        ≤ (handleDataChannelMessage st m).1.missingChunkRetries ∧
    repairCount (handleDataChannelMessage st m).2 + st.missingChunkRetries
        ≤ (handleDataChannelMessage st m).1.missingChunkRetries ∧
    (handleDataChannelMessage st m).1.missingChunkRetries
        ≤ max st.missingChunkRetries MAX_RETRIES ∧
    Output.error ∉ (handleDataChannelMessage st m).2 := by
  cases m with
  | metadata a b c d => simp [Msg.isMetadata] at hm
  | complete =>
      simpa [handleDataChannelMessage] using reconstruct_retries st
  | requestMissing l => simp [handleDataChannelMessage, repairCount]
  | binary bytes =>
      cases hdec : decode bytes with
      | none => simp [handleDataChannelMessage, hdec, repairCount]
      | some t =>
          obtain ⟨idx, chunk, ok⟩ := t
          cases ok with
          | false => simp [handleDataChannelMessage, hdec, repairCount]
          | true =>
              by_cases hlen : (mapSet st.receivedChunks idx chunk).length
                  = st.expectedChunks
              · have h := reconstruct_retries
                  { st with receivedChunks := mapSet st.receivedChunks idx chunk }
                simpa [handleDataChannelMessage, hdec, hlen] using h
              · simp [handleDataChannelMessage, hdec, hlen, repairCount]

theorem runMsgs_retries (msgs : List Msg) :
    ∀ st : RecvState, (∀ m ∈ msgs, m.isMetadata = false) →
      st.missingChunkRetries ≤ (runMsgs st msgs).1.missingChunkRetries ∧
      repairCount (runMsgs st msgs).2 + st.missingChunkRetries
          ≤ (runMsgs st msgs).1.missingChunkRetries ∧
      (runMsgs st msgs).1.missingChunkRetries
          ≤ max st.missingChunkRetries MAX_RETRIES ∧
      Output.error ∉ (runMsgs st msgs).2 := by
  induction msgs with
  | nil => intro st _; simp [runMsgs, repairCount]
  | cons m rest ih =>
      intro st hm
      have h1 := handle_retries_step st m (hm m (List.mem_cons_self m rest))
      have h2 := ih (handleDataChannelMessage st m).1
        (fun x hx => hm x (List.mem_cons_of_mem m hx))
      simp only [runMsgs, repairCount_append, List.mem_append]
      refine ⟨?_, ?_, ?_, ?_⟩
      · omega
      · omega
      · omega
      · intro hc
        rcases hc with hc | hc
        · exact h1.2.2.2 hc
        · exact h2.2.2.2 hc

/-- Claim C3 counterexample: after metadata declaring one chunk, six
file-complete triggers with the chunk still missing exhaust the retry
counter: exactly five repair requests are emitted and then nothing —
in particular no error of any kind is ever surfaced to the caller, the
exhaustion is only logged. -/
theorem C3_counterexample :
    (runMsgs ⟨[], 0, "", 0, "", false, 0⟩
        [Msg.metadata ("f") 5 ("t") 1, Msg.complete, Msg.complete,
         Msg.complete, Msg.complete, Msg.complete, Msg.complete]).2
      = [Output.repairRequest [0], Output.repairRequest [0],
         Output.repairRequest [0], Output.repairRequest [0],
         Output.repairRequest [0]] ∧
    (runMsgs ⟨[], 0, "", 0, "", false, 0⟩
        [Msg.metadata ("f") 5 ("t") 1, Msg.complete, Msg.complete,
         Msg.complete, Msg.complete, Msg.complete, Msg.complete]).1.missingChunkRetries
      = MAX_RETRIES ∧
    mapGet (runMsgs ⟨[], 0, "", 0, "", false, 0⟩
        [Msg.metadata ("f") 5 ("t") 1, Msg.complete, Msg.complete,
         Msg.complete, Msg.complete, Msg.complete, Msg.complete]).1.receivedChunks 0
      = none ∧
    Output.error ∉ (runMsgs ⟨[], 0, "", 0, "", false, 0⟩
        [Msg.metadata ("f") 5 ("t") 1, Msg.complete, Msg.complete,
         Msg.complete, Msg.complete, Msg.complete, Msg.complete]).2 := by
  refine ⟨by rfl, by rfl, by rfl, by decide⟩

/-- Claim C3 (amended): per transfer the receiver sends at most
MAX_RETRIES = 5 request-missing-chunks messages; once the retry counter
reaches the maximum, no later message of the transfer ever produces another
repair request; and no error output is ever produced — retry exhaustion is
only logged, nothing is surfaced to the external caller. -/
theorem C3_repair_requests_bounded (st : RecvState) (name : String)
    (fsize : Nat) (ftype : String) (total : Nat) (msgs : List Msg)
    (hm : ∀ m ∈ msgs, m.isMetadata = false) :
    repairCount (runMsgs (handleDataChannelMessage st
        (Msg.metadata name fsize ftype total)).1 msgs).2 ≤ MAX_RETRIES ∧
    Output.error ∉ (runMsgs (handleDataChannelMessage st
        (Msg.metadata name fsize ftype total)).1 msgs).2 ∧
    ((runMsgs (handleDataChannelMessage st
        (Msg.metadata name fsize ftype total)).1 msgs).1.missingChunkRetries
          = MAX_RETRIES →
      ∀ msgs2 : List Msg, (∀ m ∈ msgs2, m.isMetadata = false) →
        repairCount (runMsgs (runMsgs (handleDataChannelMessage st
            (Msg.metadata name fsize ftype total)).1 msgs).1 msgs2).2 = 0) := by
  have hst0 : (handleDataChannelMessage st
      (Msg.metadata name fsize ftype total)).1.missingChunkRetries = 0 := by
    simp [handleDataChannelMessage]
  have h := runMsgs_retries msgs
    (handleDataChannelMessage st (Msg.metadata name fsize ftype total)).1 hm
  refine ⟨by omega, h.2.2.2, ?_⟩
  intro hmax msgs2 hm2
  have h2 := runMsgs_retries msgs2
    (runMsgs (handleDataChannelMessage st
      (Msg.metadata name fsize ftype total)).1 msgs).1 hm2
  omega

/-- Witness for C3 at a concrete transfer: one declared chunk, one
completion trigger — a single repair request is emitted, within the bound,
with no error output. -/
theorem C3_repair_requests_bounded_witness :
    repairCount (runMsgs (handleDataChannelMessage ⟨[], 0, "", 0, "", false, 0⟩
        (Msg.metadata ("f") 5 ("t") 1)).1 [Msg.complete]).2 ≤ MAX_RETRIES ∧
    Output.error ∉ (runMsgs (handleDataChannelMessage ⟨[], 0, "", 0, "", false, 0⟩
        (Msg.metadata ("f") 5 ("t") 1)).1 [Msg.complete]).2 :=
  ⟨(C3_repair_requests_bounded ⟨[], 0, "", 0, "", false, 0⟩ ("f") 5 ("t") 1
      [Msg.complete] (by decide)).1,
   (C3_repair_requests_bounded ⟨[], 0, "", 0, "", false, 0⟩ ("f") 5 ("t") 1
      [Msg.complete] (by decide)).2.1⟩

theorem reconstruct_trig_step (st : RecvState) :
    deliverCount (reconstructAndDownloadFile st).2
        + (if st.fileReconstructionTriggered then 1 else 0)
      = (if (reconstructAndDownloadFile st).1.fileReconstructionTriggered
          then 1 else 0) := by
  unfold reconstructAndDownloadFile
  by_cases h1 : st.fileReconstructionTriggered
  · simp [h1, deliverCount]
  · by_cases h2 : st.receivedChunks.length ≠ st.expectedChunks
    · by_cases h3 : st.missingChunkRetries < MAX_RETRIES
      · by_cases h4 : ((List.range st.expectedChunks).filter
            (fun i => (mapGet st.receivedChunks i).isNone)).length > 0
        · simp [h1, h2, h3, h4, deliverCount, Output.isDeliver]
        · simp [h1, h2, h3, h4, deliverCount]
      · simp [h1, h2, h3, deliverCount]
    · simp [h1, h2, deliverCount, Output.isDeliver]

theorem handle_trig_step (st : RecvState) (m : Msg)
    (hm : m.isMetadata = false) :
    deliverCount (handleDataChannelMessage st m).2
        + (if st.fileReconstructionTriggered then 1 else 0)
      = (if (handleDataChannelMessage st m).1.fileReconstructionTriggered
          then 1 else 0) := by
  cases m with
  | metadata a b c d => simp [Msg.isMetadata] at hm
  | complete =>
      simpa [handleDataChannelMessage] using reconstruct_trig_step st
  | requestMissing l => simp [handleDataChannelMessage, deliverCount]
  | binary bytes =>
      cases hdec : decode bytes with
      | none => simp [handleDataChannelMessage, hdec, deliverCount]
      | some t =>
          obtain ⟨idx, chunk, ok⟩ := t
          cases ok with
          | false => simp [handleDataChannelMessage, hdec, deliverCount]
          | true =>
              by_cases hlen : (mapSet st.receivedChunks idx chunk).length
                  = st.expectedChunks
              · have h := reconstruct_trig_step
                  { st with receivedChunks := mapSet st.receivedChunks idx chunk }
                simpa [handleDataChannelMessage, hdec, hlen] using h
              · simp [handleDataChannelMessage, hdec, hlen, deliverCount]

theorem runMsgs_trig (msgs : List Msg) :
    ∀ st : RecvState, (∀ m ∈ msgs, m.isMetadata = false) →
      deliverCount (runMsgs st msgs).2
          + (if st.fileReconstructionTriggered then 1 else 0)
        = (if (runMsgs st msgs).1.fileReconstructionTriggered then 1 else 0) := by
  induction msgs with
  | nil => intro st _; simp [runMsgs, deliverCount]
  | cons m rest ih =>
      intro st hm
      have h1 := handle_trig_step st m (hm m (List.mem_cons_self m rest))
      have h2 := ih (handleDataChannelMessage st m).1
        (fun x hx => hm x (List.mem_cons_of_mem m hx))
      simp only [runMsgs, deliverCount_append]
      omega

/-- Well-formedness of the receiver state within one transfer declaring
`total` chunks: the declared total matches, the chunk-store keys are unique
(a JS `Map` invariant) and every stored key lies below the declared total. -/
def StoreOK (total : Nat) (st : RecvState) : Prop :=
  st.expectedChunks = total ∧ (st.receivedChunks.map Prod.fst).Nodup ∧
    ∀ k ∈ st.receivedChunks.map Prod.fst, k < total

/-- A message is in range for a transfer of `total` chunks when, if it is a
binary packet that decodes with a valid checksum, its decoded index is
below `total`.  Every packet this sender produces satisfies this, see
`senderPacket_index_lt`. -/
def InRangeMsg (total : Nat) (m : Msg) : Prop :=
  ∀ bytes idx chunk, m = Msg.binary bytes →
    decode bytes = some (idx, chunk, true) → idx < total

theorem senderPacket_index_lt (file : Bytes) (chunkSize : Nat) (pkt : Bytes)
    (h : pkt ∈ senderPackets file chunkSize) (idx : Nat) (chunk : Bytes)
    (ok : Bool) (hd : decode pkt = some (idx, chunk, ok)) :
    idx < totalChunksOf file.length chunkSize := by
  obtain ⟨i, hi, hpkt⟩ := List.mem_map.mp h
  have hilt : i < totalChunksOf file.length chunkSize := List.mem_range.mp hi
  subst hpkt
  unfold createPacket at hd
  rw [decode_cons] at hd
  have : i % 256 + 256 * (i / 256 % 256) = idx := by
    have := Option.some.inj hd
    exact congrArg Prod.fst this
  omega

theorem store_complete_of_full (total : Nat) (m : List (Nat × Bytes))
    (hn : (m.map Prod.fst).Nodup) (hb : ∀ k ∈ m.map Prod.fst, k < total)
    (hl : m.length = total) : ∀ j < total, (mapGet m j).isSome = true := by
  have hsub : m.map Prod.fst ⊆ List.range total := fun k hk =>
    List.mem_range.mpr (hb k hk)
  have hsp := List.subperm_of_subset hn hsub
  have hperm : (m.map Prod.fst).Perm (List.range total) :=
    hsp.perm_of_length_le (by simp [hl])
  intro j hj
  exact mapGet_isSome_of_mem_keys m j
    (hperm.mem_iff.mpr (List.mem_range.mpr hj))

theorem reconstruct_store (st : RecvState) :
    (reconstructAndDownloadFile st).1.receivedChunks = st.receivedChunks ∧
    (reconstructAndDownloadFile st).1.expectedChunks = st.expectedChunks := by
  unfold reconstructAndDownloadFile
  by_cases h1 : st.fileReconstructionTriggered
  · simp [h1]
  · by_cases h2 : st.receivedChunks.length ≠ st.expectedChunks
    · by_cases h3 : st.missingChunkRetries < MAX_RETRIES
      · by_cases h4 : ((List.range st.expectedChunks).filter
            (fun i => (mapGet st.receivedChunks i).isNone)).length > 0
        · simp [h1, h2, h3, h4]
        · simp [h1, h2, h3, h4]
      · simp [h1, h2, h3]
    · simp [h1, h2]

theorem storeOK_insert (total : Nat) (st : RecvState) (idx : Nat)
    (chunk : Bytes) (hok : StoreOK total st) (hidx : idx < total) :
    StoreOK total
      { st with receivedChunks := mapSet st.receivedChunks idx chunk } := by
  obtain ⟨he, hn, hb⟩ := hok
  refine ⟨he, ?_, ?_⟩
  · rw [keys_mapSet]
    by_cases hs : (mapGet st.receivedChunks idx).isSome
    · simp [hs, hn]
    · have hnotmem : idx ∉ st.receivedChunks.map Prod.fst := fun hmem =>
        hs (mapGet_isSome_of_mem_keys st.receivedChunks idx hmem)
      simp [hs]
      rw [List.nodup_append]
      exact ⟨hn, List.nodup_singleton idx, by simpa using hnotmem⟩
  · intro k hk
    rw [keys_mapSet] at hk
    by_cases hs : (mapGet st.receivedChunks idx).isSome
    · rw [if_pos hs] at hk
      exact hb k hk
    · rw [if_neg hs, List.mem_append] at hk
      rcases hk with hk | hk
      · exact hb k hk
      · rw [List.mem_singleton] at hk
        subst hk
        exact hidx

theorem handle_storeOK (total : Nat) (st : RecvState) (m : Msg)
    (hm : m.isMetadata = false) (hr : InRangeMsg total m)
    (hok : StoreOK total st) :
    StoreOK total (handleDataChannelMessage st m).1 := by
  cases m with
  | metadata a b c d => simp [Msg.isMetadata] at hm
  | complete =>
      have h := reconstruct_store st
      simp only [handleDataChannelMessage]
      exact ⟨h.2 ▸ hok.1, h.1 ▸ hok.2.1, h.1 ▸ hok.2.2⟩
  | requestMissing l =>
      simpa [handleDataChannelMessage] using hok
  | binary bytes =>
      cases hdec : decode bytes with
      | none => simpa [handleDataChannelMessage, hdec] using hok
      | some t =>
          obtain ⟨idx, chunk, ok⟩ := t
          cases ok with
          | false => simpa [handleDataChannelMessage, hdec] using hok
          | true =>
              have hidx : idx < total := hr bytes idx chunk rfl hdec
              have hok' := storeOK_insert total st idx chunk hok hidx
              by_cases hlen : (mapSet st.receivedChunks idx chunk).length
                  = st.expectedChunks
              · have h := reconstruct_store
                  { st with receivedChunks := mapSet st.receivedChunks idx chunk }
                have hgoal : (handleDataChannelMessage st (Msg.binary bytes)).1
                    = (reconstructAndDownloadFile
                        { st with receivedChunks :=
                            mapSet st.receivedChunks idx chunk }).1 := by
                  simp [handleDataChannelMessage, hdec, hlen]
                rw [hgoal]
                refine ⟨?_, ?_, ?_⟩
                · rw [h.2]; exact hok'.1
                · rw [h.1]; exact hok'.2.1
                · rw [h.1]; exact hok'.2.2
              · simpa [handleDataChannelMessage, hdec, hlen] using hok'

theorem reconstruct_deliver_mem (st : RecvState) (parts : List (Option Bytes))
    (fname : String)
    (h : Output.deliver parts fname ∈ (reconstructAndDownloadFile st).2) :
    st.receivedChunks.length = st.expectedChunks ∧
    parts = (List.range st.expectedChunks).map
      (fun i => mapGet st.receivedChunks i) := by
  unfold reconstructAndDownloadFile at h
  by_cases h1 : st.fileReconstructionTriggered
  · simp [h1] at h
  · by_cases h2 : st.receivedChunks.length ≠ st.expectedChunks
    · by_cases h3 : st.missingChunkRetries < MAX_RETRIES
      · by_cases h4 : ((List.range st.expectedChunks).filter
            (fun i => (mapGet st.receivedChunks i).isNone)).length > 0
        · simp [h1, h2, h3, h4] at h
        · simp [h1, h2, h3, h4] at h
      · simp [h1, h2, h3] at h
    · simp only [if_neg h1, if_neg h2, List.mem_singleton] at h
      have h5 : st.receivedChunks.length = st.expectedChunks := by omega
      refine ⟨h5, ?_⟩
      have := (Output.deliver.injEq _ _ _ _).mp h
      exact this.1

theorem handle_deliver_parts (total : Nat) (st : RecvState) (m : Msg)
    (hm : m.isMetadata = false) (hr : InRangeMsg total m)
    (hok : StoreOK total st) (parts : List (Option Bytes)) (fname : String)
    (h : Output.deliver parts fname ∈ (handleDataChannelMessage st m).2) :
    parts.length = total ∧ ∀ part ∈ parts, part.isSome = true := by
  have main : ∀ stM : RecvState, StoreOK total stM →
      Output.deliver parts fname ∈ (reconstructAndDownloadFile stM).2 →
      parts.length = total ∧ ∀ part ∈ parts, part.isSome = true := by
    intro stM hokM hmem
    obtain ⟨hfull, hparts⟩ := reconstruct_deliver_mem stM parts fname hmem
    obtain ⟨he, hn, hb⟩ := hokM
    have hcomplete := store_complete_of_full total stM.receivedChunks hn hb
      (by omega)
    subst hparts
    refine ⟨by simp [he], ?_⟩
    intro part hpart
    obtain ⟨j, hj, hpj⟩ := List.mem_map.mp hpart
    have hjlt : j < total := he ▸ List.mem_range.mp hj
    rw [← hpj]
    exact hcomplete j hjlt
  cases m with
  | metadata a b c d => simp [Msg.isMetadata] at hm
  | complete =>
      exact main st hok (by simpa [handleDataChannelMessage] using h)
  | requestMissing l => simp [handleDataChannelMessage] at h
  | binary bytes =>
      cases hdec : decode bytes with
      | none => simp [handleDataChannelMessage, hdec] at h
      | some t =>
          obtain ⟨idx, chunk, ok⟩ := t
          cases ok with
          | false => simp [handleDataChannelMessage, hdec] at h
          | true =>
              have hidx : idx < total := hr bytes idx chunk rfl hdec
              have hok' := storeOK_insert total st idx chunk hok hidx
              by_cases hlen : (mapSet st.receivedChunks idx chunk).length
                  = st.expectedChunks
              · exact main _ hok'
                  (by simpa [handleDataChannelMessage, hdec, hlen] using h)
              · simp [handleDataChannelMessage, hdec, hlen] at h

theorem runMsgs_deliver_parts (total : Nat) (msgs : List Msg) :
    ∀ st : RecvState, (∀ m ∈ msgs, m.isMetadata = false) →
      (∀ m ∈ msgs, InRangeMsg total m) → StoreOK total st →
      StoreOK total (runMsgs st msgs).1 ∧
      ∀ parts fname, Output.deliver parts fname ∈ (runMsgs st msgs).2 →
        parts.length = total ∧ ∀ part ∈ parts, part.isSome = true := by
  induction msgs with
  | nil =>
      intro st _ _ hok
      exact ⟨hok, by simp [runMsgs]⟩
  | cons m rest ih =>
      intro st hm hr hok
      have hok1 := handle_storeOK total st m (hm m (List.mem_cons_self m rest))
        (hr m (List.mem_cons_self m rest)) hok
      have h2 := ih (handleDataChannelMessage st m).1
        (fun x hx => hm x (List.mem_cons_of_mem m hx))
        (fun x hx => hr x (List.mem_cons_of_mem m hx)) hok1
      refine ⟨by simpa [runMsgs] using h2.1, ?_⟩
      intro parts fname hmem
      simp only [runMsgs, List.mem_append] at hmem
      rcases hmem with hmem | hmem
      · exact handle_deliver_parts total st m (hm m (List.mem_cons_self m rest))
          (hr m (List.mem_cons_self m rest)) hok parts fname hmem
      · exact h2.2 parts fname hmem

/-- Claim C2: within one transfer (messages after a metadata message, none
of them another metadata message) whose binary packets carry in-range
indices — which holds for every packet this sender emits, see
`senderPacket_index_lt` — the file-received callback fires at most once, no
matter how often reconstruction is triggered, and any delivered blob has
exactly `totalChunks` parts with no part missing: the store held a payload
(inserted only after its checksum was verified, by definition of
`handleDataChannelMessage`) for every index in [0, totalChunks). -/
theorem C2_delivery_once_and_complete (st : RecvState) (name : String)
    (fsize : Nat) (ftype : String) (total : Nat) (msgs : List Msg)
    (hmeta : ∀ m ∈ msgs, m.isMetadata = false)
    (hrange : ∀ m ∈ msgs, InRangeMsg total m) :
    deliverCount (runMsgs (handleDataChannelMessage st
        (Msg.metadata name fsize ftype total)).1 msgs).2 ≤ 1 ∧
    ∀ parts fname,
      Output.deliver parts fname ∈ (runMsgs (handleDataChannelMessage st
          (Msg.metadata name fsize ftype total)).1 msgs).2 →
        parts.length = total ∧ ∀ part ∈ parts, part.isSome = true := by
  have hst0 : (handleDataChannelMessage st
      (Msg.metadata name fsize ftype total)).1
        = ⟨[], total, name, fsize, ftype, false, 0⟩ := by
    simp [handleDataChannelMessage]
  constructor
  · have h := runMsgs_trig msgs (handleDataChannelMessage st
      (Msg.metadata name fsize ftype total)).1 hmeta
    rw [hst0] at h ⊢
    simp only at h
    by_cases hf : (runMsgs (⟨[], total, name, fsize, ftype, false, 0⟩ :
        RecvState) msgs).1.fileReconstructionTriggered
    · rw [if_pos hf] at h; omega
    · rw [if_neg hf] at h; omega
  · have hok0 : StoreOK total (handleDataChannelMessage st
        (Msg.metadata name fsize ftype total)).1 := by
      rw [hst0]
      exact ⟨rfl, List.nodup_nil, by simp⟩
    exact (runMsgs_deliver_parts total msgs _ hmeta hrange hok0).2

theorem InRangeMsg_createPacket (total i : Nat) (d : Bytes) (hi : i < total) :
    InRangeMsg total (Msg.binary (createPacket i d)) := by
  intro bytes idx chunk hb hdec
  injection hb with hb
  subst hb
  unfold createPacket at hdec
  rw [decode_cons] at hdec
  have h1 : i % 256 + 256 * (i / 256 % 256) = idx :=
    congrArg Prod.fst (Option.some.inj hdec)
  omega

/-- Witness for C2 at a concrete two-chunk transfer delivered out of order
with a duplicate and a completion message. -/
theorem C2_delivery_once_and_complete_witness :
    deliverCount (runMsgs (handleDataChannelMessage
        ⟨[], 0, "", 0, "", false, 0⟩ (Msg.metadata ("f") 2 ("t") 2)).1
        [Msg.binary (createPacket 1 [9]), Msg.binary (createPacket 0 [8]),
         Msg.binary (createPacket 1 [9]), Msg.complete]).2 ≤ 1 :=
  (C2_delivery_once_and_complete ⟨[], 0, "", 0, "", false, 0⟩ ("f") 2 ("t") 2
    [Msg.binary (createPacket 1 [9]), Msg.binary (createPacket 0 [8]),
     Msg.binary (createPacket 1 [9]), Msg.complete]
    (by decide)
    (by
      intro m hm
      simp only [List.mem_cons, List.not_mem_nil, or_false] at hm
      rcases hm with rfl | rfl | rfl | rfl
      · exact InRangeMsg_createPacket 2 1 [9] (by omega)
      · exact InRangeMsg_createPacket 2 0 [8] (by omega)
      · exact InRangeMsg_createPacket 2 1 [9] (by omega)
      · intro bytes idx chunk hb hdec
        simp at hb)).1

theorem reconstruct_complete_eq (st : RecvState)
    (h1 : st.fileReconstructionTriggered = false)
    (h2 : st.receivedChunks.length = st.expectedChunks) :
    reconstructAndDownloadFile st
      = ({ st with fileReconstructionTriggered := true },
         [Output.deliver ((List.range st.expectedChunks).map
            (fun i => mapGet st.receivedChunks i)) st.currentFileName]) := by
  unfold reconstructAndDownloadFile
  rw [if_neg (by simp [h1]), if_neg (by simp [h2])]

theorem handle_binary_eq (st : RecvState) (bytes : Bytes) (idx : Nat)
    (chunk : Bytes) (hdec : decode bytes = some (idx, chunk, true)) :
    handleDataChannelMessage st (Msg.binary bytes)
      = if (mapSet st.receivedChunks idx chunk).length = st.expectedChunks
          then reconstructAndDownloadFile
            { st with receivedChunks := mapSet st.receivedChunks idx chunk }
          else
            ({ st with receivedChunks := mapSet st.receivedChunks idx chunk },
             []) := by
  by_cases hlen : (mapSet st.receivedChunks idx chunk).length
      = st.expectedChunks
  · simp [handleDataChannelMessage, hdec, hlen]
  · simp [handleDataChannelMessage, hdec, hlen]

theorem handle_binary_full_parts (st : RecvState) (bytes : Bytes) (idx : Nat)
    (chunk : Bytes) (hdec : decode bytes = some (idx, chunk, true))
    (hfull : (mapSet st.receivedChunks idx chunk).length = st.expectedChunks)
    (htrig : st.fileReconstructionTriggered = false) :
    (handleDataChannelMessage st (Msg.binary bytes)).1.receivedChunks
        = mapSet st.receivedChunks idx chunk ∧
    (handleDataChannelMessage st (Msg.binary bytes)).2
      = [Output.deliver ((List.range st.expectedChunks).map
          (fun i => mapGet (mapSet st.receivedChunks idx chunk) i))
          st.currentFileName] := by
  rw [handle_binary_eq st bytes idx chunk hdec, if_pos hfull]
  rw [reconstruct_complete_eq
    { st with receivedChunks := mapSet st.receivedChunks idx chunk }
    htrig hfull]
  exact ⟨rfl, rfl⟩

theorem handle_binary_notfull (st : RecvState) (bytes : Bytes) (idx : Nat)
    (chunk : Bytes) (hdec : decode bytes = some (idx, chunk, true))
    (hnot : ¬(mapSet st.receivedChunks idx chunk).length
        = st.expectedChunks) :
    handleDataChannelMessage st (Msg.binary bytes)
      = ({ st with receivedChunks := mapSet st.receivedChunks idx chunk },
         []) := by
  rw [handle_binary_eq st bytes idx chunk hdec, if_neg hnot]

theorem runMsgs_one_fst (st : RecvState) (m : Msg) :
    (runMsgs st [m]).1 = (handleDataChannelMessage st m).1 := rfl

theorem runMsgs_one_snd (st : RecvState) (m : Msg) :
    (runMsgs st [m]).2 = (handleDataChannelMessage st m).2 := by
  simp [runMsgs]

theorem runMsgs_cons_fst (st : RecvState) (m : Msg) (rest : List Msg) :
    (runMsgs st (m :: rest)).1
      = (runMsgs (handleDataChannelMessage st m).1 rest).1 := rfl

theorem runMsgs_cons_snd (st : RecvState) (m : Msg) (rest : List Msg) :
    (runMsgs st (m :: rest)).2
      = (handleDataChannelMessage st m).2
          ++ (runMsgs (handleDataChannelMessage st m).1 rest).2 := rfl

theorem runPackets_char (p : Nat → Bytes) :
    ∀ (l : List Nat) (st : RecvState),
      l.Nodup →
      (∀ i ∈ l, i < 65536 ∧ (∀ b ∈ p i, b < 256) ∧
        mapGet st.receivedChunks i = none) →
      st.fileReconstructionTriggered = false →
      st.receivedChunks.length + l.length = st.expectedChunks →
      (∀ j, mapGet (runMsgs st (l.map (fun i =>
            Msg.binary (createPacket i (p i))))).1.receivedChunks j
          = if j ∈ l then some (p j) else mapGet st.receivedChunks j) ∧
      (runMsgs st (l.map (fun i => Msg.binary (createPacket i (p i))))).2
        = if l.length = 0 then ([] : List Output) else
            [Output.deliver ((List.range st.expectedChunks).map
                (fun j => mapGet (runMsgs st (l.map (fun i =>
                  Msg.binary (createPacket i (p i))))).1.receivedChunks j))
              st.currentFileName] := by
  intro l
  induction l with
  | nil =>
      intro st _ _ _ _
      constructor
      · intro j; simp [runMsgs]
      · simp [runMsgs]
  | cons a l ih =>
      intro st hnodup hmem htrig hcount
      obtain ⟨ha65536, habytes, haget⟩ := hmem a (List.mem_cons_self a l)
      have hdec : decode (createPacket a (p a)) = some (a, p a, true) := by
        rw [decode_createPacket a (p a) (quickChecksum_lt _ habytes),
          Nat.mod_eq_of_lt ha65536]
      have hlen' : (mapSet st.receivedChunks a (p a)).length
          = st.receivedChunks.length + 1 :=
        mapSet_length_of_get_none _ _ _ haget
      have hanotl : a ∉ l := (List.nodup_cons.mp hnodup).1
      have hnodupl : l.Nodup := (List.nodup_cons.mp hnodup).2
      cases l with
      | nil =>
          have hfull : (mapSet st.receivedChunks a (p a)).length
              = st.expectedChunks := by
            simp only [List.length_cons, List.length_nil] at hcount
            omega
          have hparts := handle_binary_full_parts st (createPacket a (p a)) a
            (p a) hdec hfull htrig
          constructor
          · intro j
            simp only [List.map_cons, List.map_nil]
            rw [runMsgs_one_fst, hparts.1, mapGet_mapSet]
            by_cases hja : a = j
            · subst hja
              rw [if_pos rfl, if_pos (List.mem_singleton.mpr rfl)]
            · rw [if_neg hja,
                if_neg (fun hc => hja (List.mem_singleton.mp hc).symm)]
          · simp only [List.map_cons, List.map_nil]
            rw [runMsgs_one_snd, hparts.2, if_neg (by simp)]
            rw [runMsgs_one_fst, hparts.1]
      | cons b l' =>
          have hnotfull : ¬(mapSet st.receivedChunks a (p a)).length
              = st.expectedChunks := by
            rw [hlen']
            simp only [List.length_cons] at hcount
            omega
          have hh := handle_binary_notfull st (createPacket a (p a)) a (p a)
            hdec hnotfull
          have hmem' : ∀ i ∈ b :: l', i < 65536 ∧ (∀ x ∈ p i, x < 256) ∧
              mapGet ({ st with
                receivedChunks := mapSet st.receivedChunks a (p a) } :
                RecvState).receivedChunks i = none := by
            intro i hi
            obtain ⟨h1, h2, h3⟩ := hmem i (List.mem_cons_of_mem a hi)
            refine ⟨h1, h2, ?_⟩
            show mapGet (mapSet st.receivedChunks a (p a)) i = none
            rw [mapGet_mapSet,
              if_neg (show ¬a = i from fun hai => hanotl (by rw [hai]; exact hi))]
            exact h3
          have hcount' : ({ st with
              receivedChunks := mapSet st.receivedChunks a (p a) } :
                RecvState).receivedChunks.length + (b :: l').length
              = ({ st with
                  receivedChunks := mapSet st.receivedChunks a (p a) } :
                RecvState).expectedChunks := by
            show (mapSet st.receivedChunks a (p a)).length + (b :: l').length
              = st.expectedChunks
            rw [hlen']
            simp only [List.length_cons] at hcount ⊢
            omega
          have ihres := ih { st with
              receivedChunks := mapSet st.receivedChunks a (p a) }
            hnodupl hmem' htrig hcount'
          have hrun1 : (runMsgs st ((a :: b :: l').map (fun i =>
              Msg.binary (createPacket i (p i))))).1
              = (runMsgs ({ st with
                  receivedChunks := mapSet st.receivedChunks a (p a) } :
                    RecvState)
                  ((b :: l').map (fun i =>
                    Msg.binary (createPacket i (p i))))).1 := by
            rw [List.map_cons, runMsgs_cons_fst, hh]
          have hrun2 : (runMsgs st ((a :: b :: l').map (fun i =>
              Msg.binary (createPacket i (p i))))).2
              = (runMsgs ({ st with
                  receivedChunks := mapSet st.receivedChunks a (p a) } :
                    RecvState)
                  ((b :: l').map (fun i =>
                    Msg.binary (createPacket i (p i))))).2 := by
            rw [List.map_cons, runMsgs_cons_snd, hh]
            simp
          constructor
          · intro j
            rw [hrun1, ihres.1 j]
            by_cases hjl : j ∈ b :: l'
            · rw [if_pos hjl, if_pos (List.mem_cons_of_mem a hjl)]
            · rw [if_neg hjl]
              show mapGet (mapSet st.receivedChunks a (p a)) j
                = if j ∈ a :: b :: l' then some (p j)
                  else mapGet st.receivedChunks j
              rw [mapGet_mapSet]
              by_cases hja : a = j
              · subst hja
                rw [if_pos rfl, if_pos (List.mem_cons_self a _)]
              · rw [if_neg hja, if_neg (fun hc => by
                  rcases List.mem_cons.mp hc with hc | hc
                  · exact hja hc.symm
                  · exact hjl hc)]
          · rw [hrun2, ihres.2]
            rw [if_neg (by simp), if_neg (by simp)]
            rw [hrun1]

theorem runTransfer_outputs (st : RecvState) (name : String) (fsize : Nat)
    (ftype : String) (total : Nat) (p : Nat → Bytes) (l : List Nat)
    (hl : l.Perm (List.range total)) (htotal : total ≤ 65536)
    (hbytes : ∀ i < total, ∀ b ∈ p i, b < 256) :
    (runMsgs st (Msg.metadata name fsize ftype total :: l.map (fun i =>
        Msg.binary (createPacket i (p i))))).2
      = if total = 0 then ([] : List Output) else
          [Output.deliver ((List.range total).map (fun j => some (p j)))
            name] := by
  have hst0 : handleDataChannelMessage st
      (Msg.metadata name fsize ftype total)
      = (⟨[], total, name, fsize, ftype, false, 0⟩, []) := rfl
  have hlen : l.length = total := by
    rw [hl.length_eq, List.length_range]
  have hchar := runPackets_char p l ⟨[], total, name, fsize, ftype, false, 0⟩
    (hl.nodup_iff.mpr (List.nodup_range total))
    (by
      intro i hi
      have hit : i < total := List.mem_range.mp (hl.mem_iff.mp hi)
      exact ⟨by omega, hbytes i hit, rfl⟩)
    rfl
    (by simp [hlen])
  rw [runMsgs_cons_snd, hst0]
  simp only [List.nil_append]
  rw [hchar.2]
  by_cases h0 : total = 0
  · subst h0
    have hl0 : l = [] := List.eq_nil_of_length_eq_zero hlen
    subst hl0
    simp
  · rw [if_neg (by omega), if_neg h0]
    have hmapeq : ∀ j ∈ List.range total,
        mapGet (runMsgs (⟨[], total, name, fsize, ftype, false, 0⟩ :
            RecvState) (l.map (fun i =>
          Msg.binary (createPacket i (p i))))).1.receivedChunks j
          = some (p j) := by
      intro j hj
      rw [hchar.1 j, if_pos (hl.mem_iff.mpr hj)]
    rw [List.map_congr_left hmapeq]

/-- Claim C6: for a transfer whose metadata message is processed first and
whose chunk count fits the 16-bit index width, delivering the complete set
of valid chunk packets in any permutation produces exactly the same
observable outputs — in particular the same reassembled blob — as
delivering them in index order. -/
theorem C6_out_of_order_same_blob (st : RecvState) (name : String)
    (fsize : Nat) (ftype : String) (total : Nat) (p : Nat → Bytes)
    (perm : List Nat) (hperm : perm.Perm (List.range total))
    (htotal : total ≤ 65536)
    (hbytes : ∀ i < total, ∀ b ∈ p i, b < 256) :
    (runMsgs st (Msg.metadata name fsize ftype total :: perm.map (fun i =>
        Msg.binary (createPacket i (p i))))).2
      = (runMsgs st (Msg.metadata name fsize ftype total ::
          (List.range total).map (fun i =>
            Msg.binary (createPacket i (p i))))).2 := by
  rw [runTransfer_outputs st name fsize ftype total p perm hperm htotal
      hbytes,
    runTransfer_outputs st name fsize ftype total p (List.range total)
      (List.Perm.refl _) htotal hbytes]

/-- Witness for C6: a two-chunk transfer delivered in reversed order yields
the same outputs as the in-order delivery. -/
theorem C6_out_of_order_same_blob_witness :
    (runMsgs ⟨[], 0, "", 0, "", false, 0⟩
        (Msg.metadata ("f") 2 ("t") 2 :: [1, 0].map (fun i =>
          Msg.binary (createPacket i ([i]))))).2
      = (runMsgs ⟨[], 0, "", 0, "", false, 0⟩
          (Msg.metadata ("f") 2 ("t") 2 :: (List.range 2).map (fun i =>
            Msg.binary (createPacket i ([i]))))).2 :=
  C6_out_of_order_same_blob ⟨[], 0, "", 0, "", false, 0⟩ ("f") 2 ("t") 2
    (fun i => [i]) [1, 0] (by decide) (by omega) (by decide)

theorem runMsgs_triggered_empty (name : String) (fsize : Nat)
    (ftype : String) :
    ∀ msgs : List Msg,
      (∀ m ∈ msgs, m.isMetadata = false ∧ m.isBinary = false) →
      runMsgs (⟨[], 0, name, fsize, ftype, true, 0⟩ : RecvState) msgs
        = (⟨[], 0, name, fsize, ftype, true, 0⟩, []) := by
  intro msgs
  induction msgs with
  | nil => intro _; rfl
  | cons m rest ih =>
      intro hm
      obtain ⟨hm1, hm2⟩ := hm m (List.mem_cons_self m rest)
      have ihr := ih (fun x hx => hm x (List.mem_cons_of_mem m hx))
      cases m with
      | metadata a b c d => simp [Msg.isMetadata] at hm1
      | binary b => simp [Msg.isBinary] at hm2
      | complete =>
          have hh : handleDataChannelMessage
              (⟨[], 0, name, fsize, ftype, true, 0⟩ : RecvState) Msg.complete
              = (⟨[], 0, name, fsize, ftype, true, 0⟩, []) := by
            simp [handleDataChannelMessage, reconstructAndDownloadFile]
          simp [runMsgs, hh, ihr]
      | requestMissing l =>
          have hh : handleDataChannelMessage
              (⟨[], 0, name, fsize, ftype, true, 0⟩ : RecvState)
              (Msg.requestMissing l)
              = (⟨[], 0, name, fsize, ftype, true, 0⟩, []) := rfl
          simp [runMsgs, hh, ihr]

theorem runMsgs_empty_transfer_deliver (name : String) (fsize : Nat)
    (ftype : String) :
    ∀ msgs : List Msg,
      (∀ m ∈ msgs, m.isMetadata = false ∧ m.isBinary = false) →
      (Output.deliver [] name
          ∈ (runMsgs (⟨[], 0, name, fsize, ftype, false, 0⟩ : RecvState)
              msgs).2
        ↔ Msg.complete ∈ msgs) := by
  intro msgs
  induction msgs with
  | nil => intro _; simp [runMsgs]
  | cons m rest ih =>
      intro hm
      obtain ⟨hm1, hm2⟩ := hm m (List.mem_cons_self m rest)
      have ihr := ih (fun x hx => hm x (List.mem_cons_of_mem m hx))
      cases m with
      | metadata a b c d => simp [Msg.isMetadata] at hm1
      | binary b => simp [Msg.isBinary] at hm2
      | complete =>
          have hh : handleDataChannelMessage
              (⟨[], 0, name, fsize, ftype, false, 0⟩ : RecvState) Msg.complete
              = (⟨[], 0, name, fsize, ftype, true, 0⟩,
                 [Output.deliver [] name]) := by
            simp [handleDataChannelMessage, reconstructAndDownloadFile]
          have hrest := runMsgs_triggered_empty name fsize ftype rest
            (fun x hx => hm x (List.mem_cons_of_mem Msg.complete hx))
          simp [runMsgs, hh, hrest]
      | requestMissing l =>
          have hh : handleDataChannelMessage
              (⟨[], 0, name, fsize, ftype, false, 0⟩ : RecvState)
              (Msg.requestMissing l)
              = (⟨[], 0, name, fsize, ftype, false, 0⟩, []) := rfl
          simp only [runMsgs, hh, List.nil_append, List.mem_cons]
          rw [ihr]
          simp

/-- Claim C10: a zero-byte blob yields totalChunks = 0 and no chunk
packets from the sender; on the receiver, after the metadata message, the
empty blob is delivered to the callback exactly when the file-complete
control message arrives — losing the completion message leaves a zero-byte
transfer undelivered, because the full-store reconstruction check only runs
on binary packet arrival. -/
theorem C10_empty_blob (chunkSize : Nat) (hcs : 0 < chunkSize)
    (st : RecvState) (name ftype : String) (msgs : List Msg)
    (hm : ∀ m ∈ msgs, m.isMetadata = false ∧ m.isBinary = false) :
    totalChunksOf 0 chunkSize = 0 ∧
    senderPackets [] chunkSize = [] ∧
    (Output.deliver [] name ∈ (runMsgs (handleDataChannelMessage st
          (Msg.metadata name 0 ftype 0)).1 msgs).2
      ↔ Msg.complete ∈ msgs) := by
  have h0 : totalChunksOf 0 chunkSize = 0 := by
    unfold totalChunksOf
    exact Nat.div_eq_of_lt (by omega)
  refine ⟨h0, ?_, ?_⟩
  · unfold senderPackets
    rw [show ([] : Bytes).length = 0 from rfl, h0]
    rfl
  · have hst0 : (handleDataChannelMessage st
        (Msg.metadata name 0 ftype 0)).1
        = (⟨[], 0, name, 0, ftype, false, 0⟩ : RecvState) := rfl
    rw [hst0]
    exact runMsgs_empty_transfer_deliver name 0 ftype msgs hm

/-- Witness for C10 with chunk size 1: the completion message alone
delivers the empty blob. -/
theorem C10_empty_blob_witness :
    totalChunksOf 0 1 = 0 ∧
    senderPackets [] 1 = [] ∧
    (Output.deliver [] ("f") ∈ (runMsgs (handleDataChannelMessage
          ⟨[], 0, "", 0, "", false, 0⟩ (Msg.metadata ("f") 0 ("t") 0)).1
          [Msg.complete]).2
      ↔ Msg.complete ∈ [Msg.complete]) :=
  C10_empty_blob 1 (by decide) ⟨[], 0, "", 0, "", false, 0⟩ ("f") ("t")
    [Msg.complete] (by decide)

/-- Observable behaviour of one data channel around the `sendFile` open
gate (webrtc.ts lines 135-144): whether `readyState` is open when the
per-channel promise is built, whether its `onopen` event ever fires later,
and whether `readyState` is open when the post-wait every-channel check
runs. -/
structure ChannelObs where
  openAtCall : Bool
  eventuallyFiresOpen : Bool
  openAtCheck : Bool
deriving DecidableEq

/-- Outcome of the `sendFile` open gate: the await never resolves
(`blocked`), the guard throws its channels-could-not-be-opened error
(`threw`), or the pipeline proceeds to send (`proceeded`). -/
inductive SendStart where
  | blocked
  | threw
  | proceeded
deriving DecidableEq

/-- Model of the open gate of `sendFile` (webrtc.ts lines 137-144): the
`Promise.all` resolves only when every channel is already open or fires its
`onopen` event — otherwise the await suspends forever; after the wait,
`sendFile` throws exactly when every channel's `readyState` differs from
open, and proceeds otherwise. -/
def sendFileGate (channels : List ChannelObs) : SendStart :=
  if channels.all (fun c => c.openAtCall || c.eventuallyFiresOpen) then
    if channels.all (fun c => !c.openAtCheck) then SendStart.threw
    else SendStart.proceeded
  else SendStart.blocked

/-- Claim C8 counterexample: with one channel open from the start and a
second channel that never opens, `sendFile` does not proceed — the
`Promise.all` waits on the dead channel forever; and when no channel ever
opens, `sendFile` blocks instead of failing with an error. -/
theorem C8_counterexample :
    ([⟨true, true, true⟩, ⟨false, false, false⟩] :
        List ChannelObs).any (fun c => c.openAtCall) = true ∧
    sendFileGate [⟨true, true, true⟩, ⟨false, false, false⟩]
      = SendStart.blocked ∧
    sendFileGate [⟨false, false, false⟩] = SendStart.blocked := by decide

/-- Claim C8 (amended): the `sendFile` open gate waits for every channel,
not just one: if any channel is neither open nor ever fires its open event
the send blocks forever, and when every channel does open or fire, the
gate throws its channel error exactly when no channel is in the open state
at the post-wait check. -/
theorem C8_gate_behaviour (channels : List ChannelObs) :
    ((∃ c ∈ channels, c.openAtCall = false ∧ c.eventuallyFiresOpen = false) →
      sendFileGate channels = SendStart.blocked) ∧
    ((∀ c ∈ channels, c.openAtCall = true ∨ c.eventuallyFiresOpen = true) →
      (sendFileGate channels = SendStart.threw
        ↔ ∀ c ∈ channels, c.openAtCheck = false)) := by
  unfold sendFileGate
  constructor
  · rintro ⟨c, hc, h1, h2⟩
    rw [if_neg]
    intro hall
    have := List.all_eq_true.mp hall c hc
    simp [h1, h2] at this
  · intro hall
    have hcond : channels.all
        (fun c => c.openAtCall || c.eventuallyFiresOpen) = true := by
      rw [List.all_eq_true]
      intro c hc
      rcases hall c hc with h | h <;> simp [h]
    rw [if_pos hcond]
    by_cases h2 : channels.all (fun c => !c.openAtCheck) = true
    · rw [if_pos h2]
      constructor
      · intro _ c hc
        simpa using List.all_eq_true.mp h2 c hc
      · intro _; rfl
    · rw [if_neg h2]
      constructor
      · intro hcon; cases hcon
      · intro hforall
        exact absurd (List.all_eq_true.mpr
          (fun c hc => by simpa using hforall c hc)) h2

/-- Witness for C8 (amended): one dead channel blocks the send, and an
open-then-closed channel makes the guard throw. -/
theorem C8_gate_behaviour_witness :
    sendFileGate [⟨false, false, false⟩] = SendStart.blocked ∧
    sendFileGate [⟨true, true, false⟩] = SendStart.threw :=
  ⟨(C8_gate_behaviour [⟨false, false, false⟩]).1 (by decide),
   ((C8_gate_behaviour [⟨true, true, false⟩]).2 (by decide)).mpr (by decide)⟩

/-- One invocation of `updateProgress` (webrtc.ts lines 245-256) modelled
over exact rationals: the wall-clock instants in milliseconds, the previous
byte sample, the current byte count and the declared file size. -/
structure ProgressInput where
  now : ℚ
  lastProgressTime : ℚ
  lastProgressBytes : ℚ
  bytesTransferred : ℚ
  fileSize : ℚ
deriving DecidableEq

/-- The `timeDiff` of `updateProgress`:
`(now - lastProgressTime) / 1000 || 1` — the JS `||` falls back to 1
exactly when the left operand is 0. -/
def timeDiff (p : ProgressInput) : ℚ :=
  if (p.now - p.lastProgressTime) / 1000 = 0 then 1
  else (p.now - p.lastProgressTime) / 1000

/-- The `speed` of `updateProgress`: byte delta over `timeDiff`. -/
def speed (p : ProgressInput) : ℚ :=
  (p.bytesTransferred - p.lastProgressBytes) / timeDiff p

/-- The `percentage` of `updateProgress`: `bytesTransferred / fileSize * 100`,
with no guard on `fileSize`. -/
def percentage (p : ProgressInput) : ℚ :=
  p.bytesTransferred / p.fileSize * 100

/-- The `timeRemaining` of `updateProgress`: remaining bytes over speed when
the speed is positive, 0 otherwise. -/
def timeRemaining (p : ProgressInput) : ℚ :=
  if speed p > 0 then (p.fileSize - p.bytesTransferred) / speed p else 0

/-- The divisors of the three divisions `updateProgress` performs — `timeDiff`
for speed, `fileSize` for percentage, and `speed` for timeRemaining when that
branch is taken — are all non-zero. -/
def noDivisionByZero (p : ProgressInput) : Prop :=
  timeDiff p ≠ 0 ∧ p.fileSize ≠ 0 ∧ (speed p > 0 → speed p ≠ 0)

/-- Claim C9 counterexample: with fileSize = 0 — which really occurs, since
`sendFile` on an empty file reports progress with fileSize 0 — the
percentage computation divides by zero; and with bytesTransferred above
fileSize at positive speed, the reported timeRemaining is negative. -/
theorem C9_counterexample :
    ¬noDivisionByZero ⟨1000, 0, 0, 0, 0⟩ ∧
    timeRemaining ⟨1000, 0, 0, 200, 100⟩ < 0 := by
  constructor
  · intro h
    exact h.2.1 rfl
  · norm_num [timeRemaining, speed, timeDiff]

/-- Claim C9 (amended): the `|| 1` fallback keeps `timeDiff` non-zero, so
the speed computation never divides by zero; `timeRemaining` divides only
by a positive speed, is 0 whenever the speed is not positive, and is
non-negative whenever bytesTransferred does not exceed fileSize; but the
percentage computation divides by `fileSize` unguarded, and
`timeRemaining` is negative once bytesTransferred exceeds fileSize at a
positive speed. -/
theorem C9_progress_guards (p : ProgressInput) :
    timeDiff p ≠ 0 ∧ (speed p > 0 → speed p ≠ 0) ∧
    (¬speed p > 0 → timeRemaining p = 0) ∧
    (p.bytesTransferred ≤ p.fileSize → 0 ≤ timeRemaining p) := by
  refine ⟨?_, ?_, ?_, ?_⟩
  · unfold timeDiff
    by_cases h : (p.now - p.lastProgressTime) / 1000 = 0
    · rw [if_pos h]; norm_num
    · rw [if_neg h]; exact h
  · intro h; exact ne_of_gt h
  · intro h
    unfold timeRemaining
    rw [if_neg h]
  · intro h
    unfold timeRemaining
    by_cases hs : speed p > 0
    · rw [if_pos hs]
      apply div_nonneg
      · linarith
      · linarith
    · rw [if_neg hs]

/-- Witness for C9 (amended) at a concrete in-range sample. -/
theorem C9_progress_guards_witness :
    timeDiff ⟨1000, 0, 0, 50, 100⟩ ≠ 0 ∧
    0 ≤ timeRemaining ⟨1000, 0, 0, 50, 100⟩ :=
  ⟨(C9_progress_guards ⟨1000, 0, 0, 50, 100⟩).1,
   (C9_progress_guards ⟨1000, 0, 0, 50, 100⟩).2.2.2 (by norm_num)⟩

end WebRTC
